import Mathlib

/-!
Verification of the header/footer removal core of
`header_and_footer_cutter_cat_plugin.py`.

Python strings are embedded as `List Char`; a document collection is a
`List (Document μ)` with opaque metadata type `μ`.  Python's
`ZeroDivisionError` (raised by the threshold expression
`100 - (max_differences * 100 / len(s))` when `len(s) = 0`) is embedded by
letting the affected operations return `Except String`.  Arithmetic on the
threshold is done exactly over `ℚ`; the Python `float` computation agrees
with the exact one on all comparisons performed by the program at the
relevant magnitudes.
-/

deriving instance DecidableEq for Except

namespace HeaderFooter

/-- Whitespace predicate used by Python `str.strip` / `lstrip` / `rstrip`
(the standard `str.isspace` characters in the range exercised here). -/
def pyIsSpace (c : Char) : Bool :=
  c = ' ' || c = '\t' || c = '\n' || c = '\r' || c = Char.ofNat 0x0b ||
  c = Char.ofNat 0x0c || c = Char.ofNat 0x1c || c = Char.ofNat 0x1d ||
  c = Char.ofNat 0x1e || c = Char.ofNat 0x1f || c = Char.ofNat 0x85 ||
  c = Char.ofNat 0xa0

/-- Python `str.lstrip()`. -/
def pyLstrip (s : List Char) : List Char := s.dropWhile pyIsSpace

/-- Python `str.rstrip()`. -/
def pyRstrip (s : List Char) : List Char := (s.reverse.dropWhile pyIsSpace).reverse

/-- Python `str.strip()`. -/
def pyStrip (s : List Char) : List Char := pyRstrip (pyLstrip s)

/-- Line-break characters recognised by Python `str.splitlines()`. -/
def pyIsLineBreak (c : Char) : Bool :=
  c = '\n' || c = '\r' || c = Char.ofNat 0x0b || c = Char.ofNat 0x0c ||
  c = Char.ofNat 0x1c || c = Char.ofNat 0x1d || c = Char.ofNat 0x1e ||
  c = Char.ofNat 0x85 || c = Char.ofNat 0x2028 || c = Char.ofNat 0x2029

/-- Split at every line break, keeping a (possibly empty) trailing chunk;
`"\r\n"` counts as a single break. -/
def naiveSplitlines : List Char → List (List Char)
  | [] => [[]]
  | '\r' :: '\n' :: rest => [] :: naiveSplitlines rest
  | c :: rest =>
    if pyIsLineBreak c then [] :: naiveSplitlines rest
    else
      match naiveSplitlines rest with
      | [] => [[c]]
      | l :: ls => (c :: l) :: ls

/-- Drop the final chunk when it is empty (Python `splitlines` emits no
empty final line for a trailing line break). -/
def dropTrailingEmpty : List (List Char) → List (List Char)
  | [] => []
  | [l] => if l = [] then [] else [l]
  | l :: ls => l :: dropTrailingEmpty ls

/-- Python `str.splitlines()`. -/
def splitlines (s : List Char) : List (List Char) :=
  dropTrailingEmpty (naiveSplitlines s)

/-- One dynamic-programming step of the longest-common-subsequence table:
given character `x`, the remaining characters `ys`, the previous row
(suffix starting at the current column) and the value to the left, produce
the tail of the next row. -/
def lcsNext (x : Char) : List Char → List Nat → Nat → List Nat
  | [], _, _ => []
  | y :: ys, prev, cur =>
    let d := prev.headD 0
    let up := prev.tail.headD 0
    let v := if x = y then d + 1 else max cur up
    v :: lcsNext x ys prev.tail v

/-- Length of a longest common subsequence, computed by dynamic programming. -/
def lcs (xs ys : List Char) : Nat :=
  (xs.foldl (fun prev x => 0 :: lcsNext x ys prev 0)
    (List.replicate (ys.length + 1) 0)).getLastD 0

/-- Modelled external dependency `thefuzz.fuzz.ratio` (rapidfuzz backend):
the normalised indel similarity `round(100 * 2 * lcs / (len a + len b))`,
with `100` for two empty strings.  Rounding is half-up; the program never
compares at an exact half for the inputs evaluated here. -/
def fuzz_ratio (s1 s2 : List Char) : Nat :=
  let t := s1.length + s2.length
  if t = 0 then 100 else (2 * (200 * lcs s1 s2) + t) / (2 * t)

/-- Error message standing for Python `ZeroDivisionError`. -/
def dzMsg : String := "ZeroDivisionError: division by zero"

/-- The match test `score >= 100 - (max_differences * 100 / length)` of the
source (lines 107, 154, 158), cross-multiplied by `length` into exact
natural-number arithmetic.  `threshold_ok_iff` below proves it equal to the
rational-arithmetic form for `length > 0`; for `length = 0` the source
raises `ZeroDivisionError` before this test is consulted. -/
abbrev threshold_ok (score md length : Nat) : Prop :=
  100 * length ≤ score * length + md * 100

/-- The comparison `count >= min_count_threshold` of source line 127, with
the rational threshold compared exactly against the natural count.
`rat_le_nat_iff` below proves it equal to `m ≤ (c : ℚ)`. -/
abbrev rat_le_nat (m : ℚ) (c : Nat) : Prop :=
  m.num ≤ (c : Int) * (m.den : Int)

/-- A langchain `Document`: `page_content` plus opaque metadata. -/
structure Document (μ : Type) where
  page_content : List Char
  metadata : μ
deriving DecidableEq

/-- The `defaultdict(int)` of cluster keys to occurrence counts, in
insertion order. -/
abbrev Counts := List (List Char × Nat)

/-- `counts[key] += 1` on a `defaultdict(int)`: increment in place when the
key is present, otherwise append it with count 1. -/
def bump (counts : Counts) (key : List Char) : Counts :=
  if counts.any (fun kv => kv.1 == key) then
    counts.map (fun kv => if kv.1 == key then (kv.1, kv.2 + 1) else kv)
  else counts ++ [(key, 1)]

/-- The `most_similar_key` / `max_ratio` loop of
`count_documents_with_similar_n_lines` (source lines 101–107), starting
from accumulator `acc = (most_similar_key, max_ratio)`. -/
def bestMatchAux (cand : List Char) (acc : Option (List Char) × Nat) :
    Counts → Option (List Char) × Nat
  | [] => acc
  | kv :: rest =>
    bestMatchAux cand
      (if acc.2 < fuzz_ratio cand kv.1 then (some kv.1, fuzz_ratio cand kv.1) else acc)
      rest

/-- The selected key and its score, starting from `(None, 0)`. -/
def bestMatch (cand : List Char) (counts : Counts) : Option (List Char) × Nat :=
  bestMatchAux cand (none, 0) counts

/-- Processing of one candidate sequence against the running cluster set
(source lines 99–112).  When `most_similar_key is not None` the threshold
`100 - (max_differences * 100 / len(first_n_lines))` is evaluated, raising
`ZeroDivisionError` for an empty candidate. -/
def clusterStep (md : Nat) (counts : Counts) (first_n_lines : List Char) :
    Except String Counts :=
  let best := bestMatch first_n_lines counts
  match best.1 with
  | some most_similar_key =>
    if first_n_lines.length = 0 then .error dzMsg
    else if threshold_ok best.2 md first_n_lines.length then
      .ok (bump counts most_similar_key)
    else .ok (bump counts first_n_lines)
  | none => .ok (bump counts first_n_lines)

/-- The candidate sequences one document contributes: for each `n` in
`1..max_lines`, its first (or last) `n` lines joined with `"\n"`
(source lines 91–96). -/
def candidate_regions (header : Bool) (max_lines : Nat) (content : List Char) :
    List (List Char) :=
  let lines := splitlines content
  (List.range max_lines).map (fun i =>
    List.intercalate ['\n']
      (if header then lines.take (i + 1) else lines.drop (lines.length - (i + 1))))

/-- Fold `clusterStep` over a document's candidate sequences. -/
def cluster_candidates (md : Nat) (counts : Counts) :
    List (List Char) → Except String Counts
  | [] => .ok counts
  | c :: rest =>
    match clusterStep md counts c with
    | .error e => .error e
    | .ok counts2 => cluster_candidates md counts2 rest

/-- Fold over the documents, in collection order. -/
def cluster_docs {μ : Type} (max_lines md : Nat) (header : Bool) (counts : Counts) :
    List (Document μ) → Except String Counts
  | [] => .ok counts
  | doc :: rest =>
    match cluster_candidates md counts (candidate_regions header max_lines doc.page_content) with
    | .error e => .error e
    | .ok counts2 => cluster_docs max_lines md header counts2 rest

/-- `count_documents_with_similar_n_lines` (source lines 71–112). -/
def count_documents_with_similar_n_lines {μ : Type} (documents : List (Document μ))
    (max_lines md : Nat) (header : Bool) : Except String Counts :=
  cluster_docs max_lines md header [] documents

/-- Stable insertion of `x` into a list already sorted by descending
sequence length: `x` goes before the first entry that is not strictly
longer, so earlier entries of equal length stay in front. -/
def insertDesc (x : List Char × Nat) : List (List Char × Nat) → List (List Char × Nat)
  | [] => [x]
  | y :: ys => if x.1.length < y.1.length then y :: insertDesc x ys else x :: y :: ys

/-- Stable sort by descending sequence length, modelling the stable Python
`list.sort(key=lambda x: len(x['sequence']), reverse=True)`. -/
def sortDesc : List (List Char × Nat) → List (List Char × Nat)
  | [] => []
  | x :: xs => insertDesc x (sortDesc xs)

/-- `get_frequent_sequences` (source lines 115–129): keep entries with
`count >= min_count_threshold`, sorted by descending sequence length. -/
def get_frequent_sequences (counts : Counts) (min_count_threshold : ℚ) :
    List (List Char × Nat) :=
  sortDesc (counts.filter (fun kv => decide (rat_le_nat min_count_threshold kv.2)))

/-- The per-document body of `remove_sequence_from_documents`
(source lines 150–161), for a non-empty sequence: strip, head check,
tail check. -/
def excised (sequence : List Char) (md : Nat) (content : List Char) : List Char :=
  let text := pyStrip content
  let text1 :=
    if threshold_ok (fuzz_ratio sequence (text.take sequence.length)) md sequence.length then
      pyLstrip (text.drop sequence.length)
    else text
  if threshold_ok (fuzz_ratio sequence (text1.drop (text1.length - sequence.length)))
      md sequence.length then
    pyRstrip (text1.take (text1.length - sequence.length))
  else text1

/-- Per-document excision; an empty sequence makes the threshold expression
on source line 154 raise `ZeroDivisionError`. -/
def excise_text (sequence : List Char) (md : Nat) (content : List Char) :
    Except String (List Char) :=
  if sequence.length = 0 then .error dzMsg else .ok (excised sequence md content)

/-- `remove_sequence_from_documents` (source lines 132–163): each document
is rebuilt with the excised text and its original metadata. -/
def remove_sequence_from_documents {μ : Type} (documents : List (Document μ))
    (sequence : List Char) (md : Nat) : Except String (List (Document μ)) :=
  match documents with
  | [] => .ok []
  | doc :: rest =>
    match excise_text sequence md doc.page_content,
          remove_sequence_from_documents rest sequence md with
    | .error e, _ => .error e
    | .ok _, .error e => .error e
    | .ok t, .ok ds => .ok (⟨t, doc.metadata⟩ :: ds)

/-- The excision fold of the orchestrator (source lines 216–217).  The
source calls `remove_sequence_from_documents(docs_update, sequence['sequence'],
cat=cat)` without a `max_differences` argument, so Python applies the
declared default `max_differences=3`. -/
def fold_remove {μ : Type} : List (List Char × Nat) → List (Document μ) →
    Except String (List (Document μ))
  | [], docs => .ok docs
  | kv :: rest, docs =>
    match remove_sequence_from_documents docs kv.1 3 with
    | .error e => .error e
    | .ok ds => fold_remove rest ds

/-- `min_repeting_docs = max(2, len(docs) * repeat_threshold)`
(source line 207).  The product is written with `mkRat` so that it
evaluates by kernel reduction; `min_repeting_docs_eq` below proves it
equal to `max 2 ((n : ℚ) * repeat_threshold)`. -/
def min_repeting_docs (n : Nat) (repeat_threshold : ℚ) : ℚ :=
  max 2 (mkRat ((n : Int) * repeat_threshold.num) repeat_threshold.den)

/-- `remove_headers_and_footers` (source lines 181–219).  `deepcopy` is the
identity in this value semantics. -/
def remove_headers_and_footers {μ : Type} (docs : List (Document μ))
    (max_lines : Nat) (repeat_threshold : ℚ) (max_differences : Nat) :
    Except String (List (Document μ)) :=
  let min_rep := min_repeting_docs docs.length repeat_threshold
  match count_documents_with_similar_n_lines docs max_lines max_differences true with
  | .error e => .error e
  | .ok header_counts =>
    match count_documents_with_similar_n_lines docs max_lines max_differences false with
    | .error e => .error e
    | .ok footer_counts =>
      fold_remove
        (get_frequent_sequences header_counts min_rep ++
          get_frequent_sequences footer_counts min_rep)
        docs

/-! Specification-side definitions, written from the words of the spec and
of the claims, to be compared with the definitions above that were
translated from the source. -/

/-- The maximum similarity score of the candidate against the cluster keys,
folded from a running maximum `m`. -/
def maxRatioFrom (cand : List Char) (m : Nat) : Counts → Nat
  | [] => m
  | kv :: rest => maxRatioFrom cand (max m (fuzz_ratio cand kv.1)) rest

/-- The maximum similarity score of the candidate over all cluster keys
(`0` when there are none). -/
def maxRatio (cand : List Char) (counts : Counts) : Nat := maxRatioFrom cand 0 counts

/-- The key with the maximum similarity score, ties broken in favour of the
first-seen key. -/
def firstArgmax (cand : List Char) (counts : Counts) : Option (List Char) :=
  (counts.find? (fun kv => fuzz_ratio cand kv.1 == maxRatio cand counts)).map Prod.fst

/-- One clustering step as the claim words it: select the key with the
maximum similarity score (first-seen wins ties); if such a key exists and
its score passes the threshold, increment that cluster, otherwise create a
new cluster keyed by the raw candidate. -/
def clusterStepClaim (md : Nat) (counts : Counts) (cand : List Char) :
    Except String Counts :=
  match firstArgmax cand counts with
  | some key =>
    if cand.length = 0 then .error dzMsg
    else if threshold_ok (fuzz_ratio cand key) md cand.length then .ok (bump counts key)
    else .ok (bump counts cand)
  | none => .ok (bump counts cand)

/-- One clustering step as the amended claim words it: as
`clusterStepClaim`, except that the maximum-score key is selected only when
its score is strictly positive. -/
def clusterStepClaimAmended (md : Nat) (counts : Counts) (cand : List Char) :
    Except String Counts :=
  match firstArgmax cand counts with
  | some key =>
    if 0 < fuzz_ratio cand key then
      if cand.length = 0 then .error dzMsg
      else if threshold_ok (fuzz_ratio cand key) md cand.length then .ok (bump counts key)
      else .ok (bump counts cand)
    else .ok (bump counts cand)
  | none => .ok (bump counts cand)

/-- Per-document excision as the claim words it: trim the content of
leading and trailing whitespace; head check against the first
`len(sequence)` characters, dropping them and left-trimming on a match;
tail check against the last `len(sequence)` characters of the possibly
head-trimmed text, dropping them and right-trimming on a match. -/
def excised_claim (sequence : List Char) (md : Nat) (content : List Char) : List Char :=
  let trimmed := pyStrip content
  let afterHead :=
    if threshold_ok (fuzz_ratio sequence (trimmed.take sequence.length)) md sequence.length
    then pyLstrip (trimmed.drop sequence.length)
    else trimmed
  if threshold_ok (fuzz_ratio sequence (afterHead.drop (afterHead.length - sequence.length)))
      md sequence.length
  then pyRstrip (afterHead.take (afterHead.length - sequence.length))
  else afterHead

/-! Concrete document collections used in the closed theorems below. -/

/-- Three one-page documents sharing the header line `HEADERLINE`, the
third carrying the single-character variant `XEADERLINE`. -/
def d3 : List (Document Nat) :=
  [⟨"HEADERLINE\nbody1".data, 1⟩, ⟨"HEADERLINE\nbody2".data, 2⟩,
    ⟨"XEADERLINE\nbody3".data, 3⟩]

/-- The pipeline output for `d3` (computed below). -/
def d3out : List (Document Nat) :=
  [⟨"body1".data, 1⟩, ⟨"body2".data, 2⟩, ⟨"body3".data, 3⟩]

/-- A single document whose two lines are both `A`. -/
def dA : List (Document Nat) := [⟨"A\nA".data, 0⟩]

/-- Two documents each starting with a blank line, so that both contribute
an empty first-line candidate. -/
def dE : List (Document Nat) := [⟨"\nX".data, 0⟩, ⟨"\nY".data, 1⟩]

/-! Bridging lemmas: the integer comparisons used in the executable
definitions agree exactly with the rational formulas of the source. -/

/-- `threshold_ok` is the source's `score >= 100 - (max_differences * 100 /
length)` whenever `length > 0` (the only case in which the source evaluates
it without raising `ZeroDivisionError`). -/
theorem threshold_ok_iff (score md l : Nat) (hl : 0 < l) :
    threshold_ok score md l ↔
      (100 : ℚ) - ((md : ℚ) * 100) / (l : ℚ) ≤ (score : ℚ) := by
  have hl' : (0 : ℚ) < (l : ℚ) := by exact_mod_cast hl
  rw [sub_le_iff_le_add, ← sub_le_iff_le_add', le_div_iff₀ hl']
  rw [show ((100 : ℚ) - score) * l = 100 * l - score * l from by ring, sub_le_iff_le_add]
  constructor
  · intro h
    have h2 : ((100 : ℚ)) * l ≤ score * l + md * 100 := by exact_mod_cast h
    linarith
  · intro h
    have h2 : ((100 : ℚ)) * l ≤ score * l + md * 100 := by linarith
    exact_mod_cast h2

/-- `rat_le_nat m c` is exactly `m ≤ (c : ℚ)`, i.e. the source's
`count >= min_count_threshold`. -/
theorem rat_le_nat_iff (m : ℚ) (c : Nat) : rat_le_nat m c ↔ m ≤ (c : ℚ) := by
  unfold rat_le_nat
  conv_rhs => rw [← Rat.num_divInt_den m]
  rw [show ((c : ℚ)) = Rat.divInt (c : Int) 1 by rw [Rat.divInt_one]; norm_num]
  rw [Rat.divInt_le_divInt (by exact_mod_cast m.den_pos) one_pos, mul_one]

/-- `min_repeting_docs` is the source's `max(2, len(docs) *
repeat_threshold)`. -/
theorem min_repeting_docs_eq (n : Nat) (t : ℚ) :
    min_repeting_docs n t = max 2 ((n : ℚ) * t) := by
  unfold min_repeting_docs
  congr 1
  rw [Rat.mkRat_eq_divInt]
  conv_rhs => rw [← Rat.num_divInt_den t]
  rw [show ((n : ℚ)) = Rat.divInt (n : Int) 1 by rw [Rat.divInt_one]; norm_num]
  rw [Rat.divInt_mul_divInt', one_mul]

/-! Helper lemmas about the Python string operations. -/

/-- A string with no leading whitespace is a fixed point of `pyLstrip`. -/
def noLead (s : List Char) : Prop := pyLstrip s = s

/-- A string with no trailing whitespace is a fixed point of `pyRstrip`. -/
def noTrail (s : List Char) : Prop := pyRstrip s = s

theorem dropWhile_idem (p : Char → Bool) (l : List Char) :
    List.dropWhile p (List.dropWhile p l) = List.dropWhile p l := by
  induction l with
  | nil => rfl
  | cons a l ih =>
    by_cases h : p a
    · simp only [List.dropWhile_cons, h, if_pos]
      exact ih
    · simp [List.dropWhile_cons, h]

theorem noLead_pyLstrip (s : List Char) : noLead (pyLstrip s) :=
  dropWhile_idem pyIsSpace s

theorem noTrail_pyRstrip (s : List Char) : noTrail (pyRstrip s) := by
  unfold noTrail pyRstrip
  rw [List.reverse_reverse, dropWhile_idem]

theorem noLead_of_prefix {l1 l2 : List Char} (h : l1 <+: l2) (h2 : noLead l2) :
    noLead l1 := by
  cases l1 with
  | nil => rfl
  | cons a t =>
    obtain ⟨rest, hrest⟩ := h
    have ha : pyIsSpace a = false := by
      by_contra hcon
      have ha' : pyIsSpace a = true := by
        cases hx : pyIsSpace a
        · exact absurd hx hcon
        · rfl
      have hlen : (pyLstrip l2).length ≤ (t ++ rest).length :=
        calc (pyLstrip l2).length
            = (List.dropWhile pyIsSpace (a :: (t ++ rest))).length := by
              rw [← hrest]; rfl
          _ = (List.dropWhile pyIsSpace (t ++ rest)).length := by
              rw [List.dropWhile_cons, if_pos ha']
          _ ≤ (t ++ rest).length := (List.dropWhile_suffix pyIsSpace).length_le
      rw [h2, ← hrest] at hlen
      simp at hlen
    unfold noLead pyLstrip
    rw [List.dropWhile_cons, if_neg (by simp [ha])]

theorem noTrail_iff_reverse (s : List Char) : noTrail s ↔ noLead s.reverse := by
  unfold noTrail noLead pyRstrip pyLstrip
  constructor
  · intro h
    conv_rhs => rw [← h]
    rw [List.reverse_reverse]
  · intro h
    rw [h, List.reverse_reverse]

theorem noTrail_of_suffix {l1 l2 : List Char} (h : l1 <:+ l2) (h2 : noTrail l2) :
    noTrail l1 := by
  rw [noTrail_iff_reverse] at h2 ⊢
  exact noLead_of_prefix (List.reverse_prefix.mpr h) h2

theorem pyLstrip_suffix (s : List Char) : pyLstrip s <:+ s :=
  List.dropWhile_suffix pyIsSpace

theorem pyRstrip_front (s : List Char) : pyRstrip s <+: s := by
  have h : (pyRstrip s).reverse <:+ s.reverse := by
    unfold pyRstrip
    rw [List.reverse_reverse]
    exact List.dropWhile_suffix pyIsSpace
  exact List.reverse_suffix.mp h

theorem pyStrip_within (s : List Char) : pyStrip s <:+: s :=
  (pyRstrip_front (pyLstrip s)).isInfix.trans (pyLstrip_suffix s).isInfix

theorem noLead_pyStrip (s : List Char) : noLead (pyStrip s) :=
  noLead_of_prefix (pyRstrip_front (pyLstrip s)) (noLead_pyLstrip s)

theorem noTrail_pyStrip (s : List Char) : noTrail (pyStrip s) :=
  noTrail_pyRstrip (pyLstrip s)

theorem pyStrip_of_noLead_noTrail {s : List Char} (h1 : noLead s) (h2 : noTrail s) :
    pyStrip s = s := by
  unfold pyStrip
  rw [h1, h2]

theorem excised_tail_facts (s : List Char) (md : Nat) (c t1 : List Char)
    (hsuf : t1 <:+ pyStrip c) (hlead : noLead t1) (htrail : noTrail t1) :
    (if threshold_ok (fuzz_ratio s (t1.drop (t1.length - s.length))) md s.length
      then pyRstrip (t1.take (t1.length - s.length)) else t1) <:+: pyStrip c ∧
    noLead (if threshold_ok (fuzz_ratio s (t1.drop (t1.length - s.length))) md s.length
      then pyRstrip (t1.take (t1.length - s.length)) else t1) ∧
    noTrail (if threshold_ok (fuzz_ratio s (t1.drop (t1.length - s.length))) md s.length
      then pyRstrip (t1.take (t1.length - s.length)) else t1) := by
  by_cases h2 : threshold_ok (fuzz_ratio s (t1.drop (t1.length - s.length))) md s.length
  · rw [if_pos h2]
    have hpre : pyRstrip (t1.take (t1.length - s.length)) <+: t1 :=
      (pyRstrip_front _).trans (List.take_prefix _ _)
    exact ⟨hpre.isInfix.trans hsuf.isInfix, noLead_of_prefix hpre hlead, noTrail_pyRstrip _⟩
  · rw [if_neg h2]
    exact ⟨hsuf.isInfix, hlead, htrail⟩

/-- The excised text is an infix of the stripped content, has no leading
whitespace, and has no trailing whitespace. -/
theorem excised_facts (s : List Char) (md : Nat) (c : List Char) :
    excised s md c <:+: pyStrip c ∧ noLead (excised s md c) ∧ noTrail (excised s md c) := by
  unfold excised
  by_cases h1 : threshold_ok (fuzz_ratio s ((pyStrip c).take s.length)) md s.length
  · simp only [if_pos h1]
    exact excised_tail_facts s md c _
      ((pyLstrip_suffix _).trans (List.drop_suffix _ _))
      (noLead_pyLstrip _)
      (noTrail_of_suffix ((pyLstrip_suffix _).trans (List.drop_suffix _ _)) (noTrail_pyStrip c))
  · simp only [if_neg h1]
    exact excised_tail_facts s md c _ (List.suffix_refl _) (noLead_pyStrip c) (noTrail_pyStrip c)

theorem excised_length_le (s : List Char) (md : Nat) (c : List Char) :
    (excised s md c).length ≤ (pyStrip c).length :=
  (excised_facts s md c).1.sublist.length_le

theorem pyStrip_length_le (c : List Char) : (pyStrip c).length ≤ c.length :=
  (pyStrip_within c).sublist.length_le

theorem excised_stripped (s : List Char) (md : Nat) (c : List Char) :
    pyStrip (excised s md c) = excised s md c :=
  pyStrip_of_noLead_noTrail (excised_facts s md c).2.1 (excised_facts s md c).2.2

/-- A successful `remove_sequence_from_documents` call rebuilds each
document with the excised content and the original metadata. -/
theorem remove_sequence_ok_map {μ : Type} {docs : List (Document μ)} {seq : List Char}
    {md : Nat} {out : List (Document μ)}
    (h : remove_sequence_from_documents docs seq md = .ok out) :
    out = docs.map (fun d => ⟨excised seq md d.page_content, d.metadata⟩) := by
  induction docs generalizing out with
  | nil =>
    unfold remove_sequence_from_documents at h
    cases h
    rfl
  | cons d ds ih =>
    unfold remove_sequence_from_documents at h
    cases hex : excise_text seq md d.page_content with
    | error e => rw [hex] at h; cases h
    | ok t =>
      rw [hex] at h
      cases hrest : remove_sequence_from_documents ds seq md with
      | error e => rw [hrest] at h; cases h
      | ok outs =>
        rw [hrest] at h
        cases h
        have ht : t = excised seq md d.page_content := by
          unfold excise_text at hex
          by_cases hz : seq.length = 0
          · rw [if_pos hz] at hex; cases hex
          · rw [if_neg hz] at hex; cases hex; rfl
        rw [List.map_cons, ← ih hrest, ht]

/-- A successful `remove_sequence_from_documents` call on a non-empty
collection implies the sequence was non-empty. -/
theorem remove_sequence_ok_ne_nil {μ : Type} {d : Document μ} {ds : List (Document μ)}
    {seq : List Char} {md : Nat} {out : List (Document μ)}
    (h : remove_sequence_from_documents (d :: ds) seq md = .ok out) : seq ≠ [] := by
  intro hseq
  subst hseq
  unfold remove_sequence_from_documents excise_text at h
  simp at h

/-- A successful excision fold preserves the collection length, never grows
any document's content and never changes any document's metadata. -/
theorem fold_remove_ok {μ : Type} :
    ∀ (seqs : List (List Char × Nat)) (docs out : List (Document μ)),
    fold_remove seqs docs = .ok out →
    out.length = docs.length ∧ ∀ (i : Nat) (h1 : i < out.length) (h2 : i < docs.length),
      out[i].page_content.length ≤ docs[i].page_content.length ∧
      out[i].metadata = docs[i].metadata := by
  intro seqs
  induction seqs with
  | nil =>
    intro docs out h
    unfold fold_remove at h
    cases h
    exact ⟨rfl, fun i h1 h2 => ⟨Nat.le_refl _, rfl⟩⟩
  | cons kv rest ih =>
    intro docs out h
    unfold fold_remove at h
    cases hrm : remove_sequence_from_documents docs kv.1 3 with
    | error e => rw [hrm] at h; cases h
    | ok ds =>
      rw [hrm] at h
      have hmap := remove_sequence_ok_map hrm
      obtain ⟨hlen, hpt⟩ := ih ds out h
      have hdslen : ds.length = docs.length := by rw [hmap]; simp
      refine ⟨hlen.trans hdslen, fun i h1 h2 => ?_⟩
      have hds : i < ds.length := hdslen ▸ h2
      have h3 := hpt i h1 hds
      have hgi : ds[i] = ⟨excised kv.1 3 docs[i].page_content, docs[i].metadata⟩ := by
        subst hmap
        simp
      constructor
      · refine h3.1.trans ?_
        rw [hgi]
        exact (excised_length_le _ _ _).trans (pyStrip_length_le _)
      · rw [h3.2, hgi]

/-- A successful pipeline run is a successful excision fold over the input
collection. -/
theorem rhf_ok_fold {μ : Type} {docs : List (Document μ)} {mL : Nat} {t : ℚ} {md : Nat}
    {out : List (Document μ)}
    (h : remove_headers_and_footers docs mL t md = .ok out) :
    ∃ seqs, fold_remove seqs docs = .ok out := by
  unfold remove_headers_and_footers at h
  cases h1 : count_documents_with_similar_n_lines docs mL md true with
  | error e => rw [h1] at h; cases h
  | ok hc =>
    rw [h1] at h
    cases h2 : count_documents_with_similar_n_lines docs mL md false with
    | error e => rw [h2] at h; cases h
    | ok fc =>
      rw [h2] at h
      exact ⟨_, h⟩

/-! Characterisation of the source's best-match loop: it selects the
first key attaining the maximum score, and only when that maximum beats
the running score it started from. -/

theorem ite_lt_max (a r : Nat) : (if a < r then r else a) = max a r := by
  rcases Nat.lt_or_ge a r with h | h
  · rw [if_pos h, Nat.max_eq_right h.le]
  · rw [if_neg (Nat.not_lt.mpr h), Nat.max_eq_left h]

theorem maxRatioFrom_ge (cand : List Char) :
    ∀ (l : Counts) (m : Nat), m ≤ maxRatioFrom cand m l := by
  intro l
  induction l with
  | nil => intro m; exact Nat.le_refl m
  | cons kv rest ih =>
    intro m
    exact (Nat.le_max_left m (fuzz_ratio cand kv.1)).trans (ih _)

theorem bestMatchAux_snd (cand : List Char) :
    ∀ (l : Counts) (acc : Option (List Char) × Nat),
    (bestMatchAux cand acc l).2 = maxRatioFrom cand acc.2 l := by
  intro l
  induction l with
  | nil => intro acc; rfl
  | cons kv rest ih =>
    intro acc
    show (bestMatchAux cand
        (if acc.2 < fuzz_ratio cand kv.1 then (some kv.1, fuzz_ratio cand kv.1) else acc)
        rest).2 = maxRatioFrom cand (max acc.2 (fuzz_ratio cand kv.1)) rest
    rw [ih]
    congr 1
    rw [apply_ite Prod.snd]
    exact ite_lt_max acc.2 (fuzz_ratio cand kv.1)

theorem bestMatchAux_fst (cand : List Char) :
    ∀ (l : Counts) (acc : Option (List Char) × Nat),
    (bestMatchAux cand acc l).1 =
      if maxRatioFrom cand acc.2 l ≤ acc.2 then acc.1
      else (l.find? (fun kv => fuzz_ratio cand kv.1 == maxRatioFrom cand acc.2 l)).map
        Prod.fst := by
  intro l
  induction l with
  | nil =>
    intro acc
    show acc.1 = if acc.2 ≤ acc.2 then acc.1 else _
    rw [if_pos (Nat.le_refl acc.2)]
  | cons kv rest ih =>
    intro acc
    show (bestMatchAux cand
        (if acc.2 < fuzz_ratio cand kv.1 then (some kv.1, fuzz_ratio cand kv.1) else acc)
        rest).1 =
      if maxRatioFrom cand (max acc.2 (fuzz_ratio cand kv.1)) rest ≤ acc.2 then acc.1
      else ((kv :: rest).find?
        (fun kv2 => fuzz_ratio cand kv2.1 ==
          maxRatioFrom cand (max acc.2 (fuzz_ratio cand kv.1)) rest)).map Prod.fst
    by_cases hlt : acc.2 < fuzz_ratio cand kv.1
    · have hmx : max acc.2 (fuzz_ratio cand kv.1) = fuzz_ratio cand kv.1 :=
        Nat.max_eq_right hlt.le
      rw [if_pos hlt, hmx]
      have hge : fuzz_ratio cand kv.1 ≤ maxRatioFrom cand (fuzz_ratio cand kv.1) rest :=
        maxRatioFrom_ge cand rest _
      have hgt : acc.2 < maxRatioFrom cand (fuzz_ratio cand kv.1) rest :=
        Nat.lt_of_lt_of_le hlt hge
      rw [if_neg (Nat.not_le.mpr hgt)]
      rw [ih (some kv.1, fuzz_ratio cand kv.1)]
      by_cases hMr : maxRatioFrom cand (fuzz_ratio cand kv.1) rest ≤ fuzz_ratio cand kv.1
      · have heq : fuzz_ratio cand kv.1 = maxRatioFrom cand (fuzz_ratio cand kv.1) rest :=
          Nat.le_antisymm hge hMr
        rw [if_pos hMr, List.find?_cons_of_pos _ (by simp [← heq])]
        rfl
      · rw [if_neg hMr, List.find?_cons_of_neg _ (by
          simp only [beq_iff_eq]
          intro hcon
          exact hMr (Nat.le_of_eq hcon.symm))]
    · have hmx : max acc.2 (fuzz_ratio cand kv.1) = acc.2 :=
        Nat.max_eq_left (Nat.not_lt.mp hlt)
      rw [if_neg hlt, hmx, ih acc]
      by_cases hM : maxRatioFrom cand acc.2 rest ≤ acc.2
      · rw [if_pos hM, if_pos hM]
      · rw [if_neg hM, if_neg hM, List.find?_cons_of_neg _ (by
          simp only [beq_iff_eq]
          intro hcon
          exact hM (hcon ▸ Nat.not_lt.mp hlt))]

theorem bestMatch_snd (cand : List Char) (counts : Counts) :
    (bestMatch cand counts).2 = maxRatio cand counts :=
  bestMatchAux_snd cand counts (none, 0)

theorem bestMatch_fst (cand : List Char) (counts : Counts) :
    (bestMatch cand counts).1 =
      if maxRatio cand counts = 0 then none else firstArgmax cand counts := by
  have h := bestMatchAux_fst cand counts (none, 0)
  dsimp only at h
  unfold bestMatch firstArgmax maxRatio
  rw [h]
  by_cases hM : maxRatioFrom cand 0 counts = 0
  · rw [if_pos (Nat.le_of_eq hM), if_pos hM]
  · rw [if_neg (fun hc => hM (Nat.le_zero.mp hc)), if_neg hM]

theorem firstArgmax_some {cand : List Char} {counts : Counts} {key : List Char}
    (h : firstArgmax cand counts = some key) :
    fuzz_ratio cand key = maxRatio cand counts := by
  unfold firstArgmax at h
  rcases Option.map_eq_some'.mp h with ⟨kv, hfind, hfst⟩
  have hp := List.find?_some hfind
  rw [beq_iff_eq] at hp
  rw [← hfst]
  exact hp

/-! Properties of the stable descending-length sort. -/

theorem insertDesc_perm (x : List Char × Nat) (l : List (List Char × Nat)) :
    (insertDesc x l).Perm (x :: l) := by
  induction l with
  | nil => exact List.Perm.refl _
  | cons y ys ih =>
    unfold insertDesc
    by_cases h : x.1.length < y.1.length
    · rw [if_pos h]
      exact (ih.cons y).trans (List.Perm.swap x y ys)
    · rw [if_neg h]

theorem sortDesc_perm (l : List (List Char × Nat)) : (sortDesc l).Perm l := by
  induction l with
  | nil => exact List.Perm.refl _
  | cons x xs ih =>
    exact (insertDesc_perm x (sortDesc xs)).trans (ih.cons x)

theorem insertDesc_pairwise {x : List Char × Nat} {l : List (List Char × Nat)}
    (h : l.Pairwise (fun a b => b.1.length ≤ a.1.length)) :
    (insertDesc x l).Pairwise (fun a b => b.1.length ≤ a.1.length) := by
  induction l with
  | nil => exact List.pairwise_singleton _ x
  | cons y ys ih =>
    rcases List.pairwise_cons.mp h with ⟨hy, hys⟩
    unfold insertDesc
    by_cases hlen : x.1.length < y.1.length
    · rw [if_pos hlen]
      refine List.pairwise_cons.mpr ⟨?_, ih hys⟩
      intro b hb
      rcases List.mem_cons.mp ((insertDesc_perm x ys).subset hb) with hbx | hbys
      · exact hbx ▸ hlen.le
      · exact hy b hbys
    · rw [if_neg hlen]
      refine List.pairwise_cons.mpr ⟨?_, h⟩
      intro b hb
      rcases List.mem_cons.mp hb with hby | hbys
      · exact hby ▸ Nat.not_lt.mp hlen
      · exact (hy b hbys).trans (Nat.not_lt.mp hlen)

theorem sortDesc_pairwise (l : List (List Char × Nat)) :
    (sortDesc l).Pairwise (fun a b => b.1.length ≤ a.1.length) := by
  induction l with
  | nil => exact List.Pairwise.nil
  | cons x xs ih => exact insertDesc_pairwise ih

theorem insertDesc_filter_len (x : List Char × Nat) (l : List (List Char × Nat)) (n : Nat) :
    (insertDesc x l).filter (fun y => y.1.length == n) =
      (if x.1.length == n then [x] else []) ++ l.filter (fun y => y.1.length == n) := by
  induction l with
  | nil =>
    unfold insertDesc
    rw [List.filter_cons]
    cases hx : (x.1.length == n) <;> simp [hx]
  | cons y ys ih =>
    unfold insertDesc
    by_cases hlen : x.1.length < y.1.length
    · rw [if_pos hlen, List.filter_cons, List.filter_cons, ih]
      by_cases hx : x.1.length = n
      · have hy : (y.1.length == n) = false := by
          rw [beq_eq_false_iff_ne]
          omega
        simp [hx, hy]
      · have hx' : (x.1.length == n) = false := beq_eq_false_iff_ne.mpr hx
        cases hy : (y.1.length == n) <;> simp [hx', hy]
    · rw [if_neg hlen, List.filter_cons, List.filter_cons]
      cases hx : (x.1.length == n) <;> cases hy : (y.1.length == n) <;> simp [hx, hy]

theorem sortDesc_filter_len (l : List (List Char × Nat)) (n : Nat) :
    (sortDesc l).filter (fun y => y.1.length == n) =
      l.filter (fun y => y.1.length == n) := by
  induction l with
  | nil => rfl
  | cons x xs ih =>
    show (insertDesc x (sortDesc xs)).filter (fun y => y.1.length == n) = _
    rw [insertDesc_filter_len, ih, List.filter_cons]
    cases hx : (x.1.length == n) <;> simp [hx]

/-- Unfolding equation for `fold_remove` on a non-empty candidate list. -/
theorem fold_remove_cons {μ : Type} (kv : List Char × Nat) (rest : List (List Char × Nat))
    (docs : List (Document μ)) :
    fold_remove (kv :: rest) docs =
      match remove_sequence_from_documents docs kv.1 3 with
      | .error e => .error e
      | .ok ds => fold_remove rest ds := rfl

/-- Folding excision over a concatenation is folding over the first part
and then folding over the second part on its output. -/
theorem fold_remove_append {μ : Type} :
    ∀ (hs fs : List (List Char × Nat)) (docs : List (Document μ)),
    fold_remove (hs ++ fs) docs =
      match fold_remove hs docs with
      | .error e => .error e
      | .ok ds => fold_remove fs ds := by
  intro hs
  induction hs with
  | nil => intro fs docs; rfl
  | cons kv rest ih =>
    intro fs docs
    rw [List.cons_append, fold_remove_cons, fold_remove_cons]
    cases hrm : remove_sequence_from_documents docs kv.1 3 with
    | error e => rfl
    | ok ds => exact ih fs ds

/-! The claim theorems. -/

/-- C1: the claim that the excision stage uses the caller-configured
`max_differences` (so that with `max_differences = 0` only byte-identical
regions are removed) fails on the code: `remove_headers_and_footers`
calls `remove_sequence_from_documents` without a `max_differences`
argument (source line 217), so Python applies the declared default `3`.
Running the pipeline on `d3` with `max_differences = 0`, the third
document's head region `XEADERLINE` is at edit distance 1 from the
removed sequence `HEADERLINE` (similarity 90, rejected by the configured
tolerance `0`, accepted by the default tolerance `3`), yet it is excised. -/
theorem C1_threshold_boundary_violated :
    remove_headers_and_footers d3 1 0 0 = .ok d3out ∧
    "XEADERLINE".data ≠ "HEADERLINE".data ∧
    fuzz_ratio "HEADERLINE".data "XEADERLINE".data = 90 ∧
    ¬ threshold_ok (fuzz_ratio "HEADERLINE".data "XEADERLINE".data) 0 10 ∧
    threshold_ok (fuzz_ratio "HEADERLINE".data "XEADERLINE".data) 3 10 :=
  ⟨by decide, by decide, by decide, by decide, by decide⟩

/-- C2: an empty comparison string reaching the threshold computation
raises a division-by-zero error that propagates to the caller; it is never
silently skipped.  In excision this happens for every document as soon as
the collection is non-empty; in clustering it happens exactly when the
guard `most_similar_key is not None` passes for an empty candidate; the
third conjunct propagates such an error through a whole pipeline run. -/
theorem C2_empty_string_division_error :
    (∀ (μ : Type) (docs : List (Document μ)) (md : Nat),
      docs ≠ [] → remove_sequence_from_documents docs [] md = .error dzMsg) ∧
    (∀ (counts : Counts) (md : Nat) (k : List Char),
      (bestMatch [] counts).1 = some k → clusterStep md counts [] = .error dzMsg) ∧
    remove_headers_and_footers dE 1 0 0 = .error dzMsg := by
  refine ⟨?_, ?_, by decide⟩
  · intro μ docs md hne
    cases docs with
    | nil => exact absurd rfl hne
    | cons d ds => rfl
  · intro counts md k h
    simp [clusterStep, h]

/-- Witness for C2 at concrete inputs. -/
theorem C2_witness :
    remove_sequence_from_documents [(⟨['A'], 0⟩ : Document Nat)] [] 3 = .error dzMsg ∧
    clusterStep 3 [([], 1)] [] = .error dzMsg :=
  ⟨C2_empty_string_division_error.1 Nat [⟨['A'], 0⟩] 3 (by decide),
   C2_empty_string_division_error.2.1 [([], 1)] 3 [] (by decide)⟩

/-- C3 counterexample: on the one-document collection `dA` with
`repeat_threshold = 0`, the pipeline removes content (indeed it empties
the document), refuting the claim that a 1-document collection never has a
header or footer removed.  One document contributes one candidate per
region length into the shared cluster set, so the cluster `A` reaches the
bar of 2 from this single document. -/
theorem C3_counterexample :
    remove_headers_and_footers dA 2 0 3 = .ok [⟨[], 0⟩] ∧
    dA = [⟨"A\nA".data, 0⟩] ∧ ([] : List Char) ≠ "A\nA".data :=
  ⟨by decide, by decide, by decide⟩

/-- C3 amended: the orchestrator does compute
`min_repeating_docs = max(2, document_count * repeat_threshold)`, which is
always at least 2; however this floor does not guarantee that a 1-document
collection is left unchanged, since one document can place several
candidates in the same cluster. -/
theorem C3_repetition_floor :
    (∀ (n : Nat) (t : ℚ), min_repeting_docs n t = max 2 ((n : ℚ) * t) ∧
      (2 : ℚ) ≤ min_repeting_docs n t) ∧
    remove_headers_and_footers dA 2 0 3 = .ok [⟨[], 0⟩] := by
  refine ⟨fun n t => ⟨min_repeting_docs_eq n t, ?_⟩, by decide⟩
  rw [min_repeting_docs_eq]
  exact le_max_left _ _

/-- C4: excision only removes characters — a successful excision step, and
a successful pipeline run, never grow any document's content. -/
theorem C4_monotonic_shrink :
    (∀ (μ : Type) (docs : List (Document μ)) (seq : List Char) (md : Nat)
        (out : List (Document μ)),
      remove_sequence_from_documents docs seq md = .ok out →
      out.length = docs.length ∧
        ∀ (i : Nat) (h1 : i < out.length) (h2 : i < docs.length),
          out[i].page_content.length ≤ docs[i].page_content.length) ∧
    (∀ (μ : Type) (docs : List (Document μ)) (mL : Nat) (t : ℚ) (md : Nat)
        (out : List (Document μ)),
      remove_headers_and_footers docs mL t md = .ok out →
      out.length = docs.length ∧
        ∀ (i : Nat) (h1 : i < out.length) (h2 : i < docs.length),
          out[i].page_content.length ≤ docs[i].page_content.length) := by
  constructor
  · intro μ docs seq md out h
    have hmap := remove_sequence_ok_map h
    subst hmap
    refine ⟨by simp, fun i h1 h2 => ?_⟩
    simp only [List.getElem_map]
    exact (excised_length_le _ _ _).trans (pyStrip_length_le _)
  · intro μ docs mL t md out h
    obtain ⟨seqs, hf⟩ := rhf_ok_fold h
    obtain ⟨hlen, hpt⟩ := fold_remove_ok seqs docs out hf
    exact ⟨hlen, fun i h1 h2 => (hpt i h1 h2).1⟩

/-- Witness for C4 on a concrete pipeline run. -/
theorem C4_witness :
    d3out.length = d3.length ∧
    (d3out.get ⟨0, by decide⟩).page_content.length ≤
      (d3.get ⟨0, by decide⟩).page_content.length := by
  have h := C4_monotonic_shrink.2 Nat d3 1 0 0 d3out (by decide)
  exact ⟨h.1, h.2 0 (by decide) (by decide)⟩

/-- C5: every output document keeps the metadata of its input document,
both for a single excision step and for a whole pipeline run; in this
value semantics the input collection itself is never modified — the
pipeline returns a fresh list. -/
theorem C5_metadata_preserved :
    (∀ (μ : Type) (docs : List (Document μ)) (seq : List Char) (md : Nat)
        (out : List (Document μ)),
      remove_sequence_from_documents docs seq md = .ok out →
      out.length = docs.length ∧
        ∀ (i : Nat) (h1 : i < out.length) (h2 : i < docs.length),
          out[i].metadata = docs[i].metadata) ∧
    (∀ (μ : Type) (docs : List (Document μ)) (mL : Nat) (t : ℚ) (md : Nat)
        (out : List (Document μ)),
      remove_headers_and_footers docs mL t md = .ok out →
      out.length = docs.length ∧
        ∀ (i : Nat) (h1 : i < out.length) (h2 : i < docs.length),
          out[i].metadata = docs[i].metadata) := by
  constructor
  · intro μ docs seq md out h
    have hmap := remove_sequence_ok_map h
    subst hmap
    refine ⟨by simp, fun i h1 h2 => ?_⟩
    simp only [List.getElem_map]
  · intro μ docs mL t md out h
    obtain ⟨seqs, hf⟩ := rhf_ok_fold h
    obtain ⟨hlen, hpt⟩ := fold_remove_ok seqs docs out hf
    exact ⟨hlen, fun i h1 h2 => (hpt i h1 h2).2⟩

/-- Witness for C5 on a concrete pipeline run. -/
theorem C5_witness :
    d3out.length = d3.length ∧
    (d3out.get ⟨2, by decide⟩).metadata = (d3.get ⟨2, by decide⟩).metadata := by
  have h := C5_metadata_preserved.2 Nat d3 1 0 0 d3out (by decide)
  exact ⟨h.1, h.2 2 (by decide) (by decide)⟩

/-- C6 counterexample: the code selects a best key only when its score is
strictly positive.  With cluster set `{XY: 1}` and candidate `AB`
(similarity 0) at `max_differences = 3`, the claim's reading — the
maximum-score key `XY` exists and its score 0 passes the threshold
`100 - 3*100/2 = -50` — increments `XY`, while the code creates a new
cluster `AB`. -/
theorem C6_counterexample :
    clusterStep 3 [("XY".data, 1)] "AB".data = .ok [("XY".data, 1), ("AB".data, 1)] ∧
    clusterStepClaim 3 [("XY".data, 1)] "AB".data = .ok [("XY".data, 2)] ∧
    clusterStep 3 [("XY".data, 1)] "AB".data ≠
      clusterStepClaim 3 [("XY".data, 1)] "AB".data :=
  ⟨by decide, by decide, by decide⟩

/-- C6 amended: every clustering step behaves as the claim describes,
except that the maximum-similarity key is selected only when its score is
strictly positive (otherwise a new cluster is created even though a
maximum-score key exists). -/
theorem C6_cluster_step :
    ∀ (md : Nat) (counts : Counts) (cand : List Char),
      clusterStep md counts cand = clusterStepClaimAmended md counts cand := by
  intro md counts cand
  simp only [clusterStep, clusterStepClaimAmended]
  rw [bestMatch_fst, bestMatch_snd]
  by_cases hM : maxRatio cand counts = 0
  · rw [if_pos hM]
    cases hFA : firstArgmax cand counts with
    | none => rfl
    | some key =>
      have hr := firstArgmax_some hFA
      rw [hM] at hr
      dsimp only
      rw [if_neg (by rw [hr]; exact Nat.lt_irrefl 0)]
  · rw [if_neg hM]
    cases hFA : firstArgmax cand counts with
    | none => rfl
    | some key =>
      have hr := firstArgmax_some hFA
      have hpos : 0 < fuzz_ratio cand key := by
        rw [hr]
        exact Nat.pos_of_ne_zero hM
      dsimp only
      rw [if_pos hpos, hr]

/-- The executable frequency filter agrees with filtering by
`min_count ≤ count` over `ℚ`. -/
theorem gfs_filter_eq (counts : Counts) (m : ℚ) :
    counts.filter (fun kv => decide (rat_le_nat m kv.2)) =
      counts.filter (fun kv => decide (m ≤ (kv.2 : ℚ))) :=
  List.filter_congr (fun x _ => decide_eq_decide.mpr (rat_le_nat_iff m x.2))

/-- C7: the frequency filter keeps exactly the clusters whose count meets
the bar (as a permutation of the filtered cluster list), returns them
sorted by descending sequence length, stably (the per-length sublists keep
the cluster-creation order), and the orchestrator folds excision over the
filtered header candidates first and then the filtered footer candidates,
each excision seeing the output of the previous one. -/
theorem C7_filter_sort_fold :
    (∀ (counts : Counts) (m : ℚ),
      (get_frequent_sequences counts m).Perm
        (counts.filter (fun kv => decide (m ≤ (kv.2 : ℚ))))) ∧
    (∀ (counts : Counts) (m : ℚ),
      (get_frequent_sequences counts m).Pairwise
        (fun a b => b.1.length ≤ a.1.length)) ∧
    (∀ (counts : Counts) (m : ℚ) (n : Nat),
      (get_frequent_sequences counts m).filter (fun kv => kv.1.length == n) =
        (counts.filter (fun kv => decide (m ≤ (kv.2 : ℚ)))).filter
          (fun kv => kv.1.length == n)) ∧
    (∀ (μ : Type) (docs : List (Document μ)) (mL : Nat) (t : ℚ) (md : Nat),
      remove_headers_and_footers docs mL t md =
        match count_documents_with_similar_n_lines docs mL md true with
        | .error e => .error e
        | .ok header_counts =>
          match count_documents_with_similar_n_lines docs mL md false with
          | .error e => .error e
          | .ok footer_counts =>
            match fold_remove
                (get_frequent_sequences header_counts (min_repeting_docs docs.length t))
                docs with
            | .error e => .error e
            | .ok ds =>
              fold_remove
                (get_frequent_sequences footer_counts (min_repeting_docs docs.length t))
                ds) := by
  refine ⟨?_, ?_, ?_, ?_⟩
  · intro counts m
    unfold get_frequent_sequences
    rw [gfs_filter_eq]
    exact sortDesc_perm _
  · intro counts m
    exact sortDesc_pairwise _
  · intro counts m n
    unfold get_frequent_sequences
    rw [sortDesc_filter_len, gfs_filter_eq]
  · intro μ docs mL t md
    unfold remove_headers_and_footers
    cases h1 : count_documents_with_similar_n_lines docs mL md true with
    | error e => rfl
    | ok header_counts =>
      cases h2 : count_documents_with_similar_n_lines docs mL md false with
      | error e => rfl
      | ok footer_counts =>
        exact fold_remove_append _ _ docs

/-- C8: for a non-empty candidate sequence, per-document excision is
exactly the claim's three steps — trim, head check on the first
`len(sequence)` characters, tail check on the last `len(sequence)`
characters of the possibly head-trimmed text — and the two checks are
independent: on the document `AB\nAB` with sequence `AB` both fire. -/
theorem C8_head_and_tail_checks :
    (∀ (sequence : List Char) (md : Nat) (content : List Char),
      sequence ≠ [] →
      excise_text sequence md content = .ok (excised_claim sequence md content)) ∧
    (excise_text "AB".data 0 "AB\nAB".data = .ok [] ∧
      threshold_ok (fuzz_ratio "AB".data ((pyStrip "AB\nAB".data).take 2)) 0 2 ∧
      threshold_ok (fuzz_ratio "AB".data
        ((pyLstrip ((pyStrip "AB\nAB".data).drop 2)).drop
          ((pyLstrip ((pyStrip "AB\nAB".data).drop 2)).length - 2))) 0 2) := by
  constructor
  · intro s md c hs
    unfold excise_text
    rw [if_neg (fun h => hs (List.length_eq_zero.mp h))]
    rfl
  · exact ⟨by decide, by decide, by decide⟩

/-- Witness for C8 at a concrete input. -/
theorem C8_witness :
    excise_text "A".data 3 " A ".data = .ok (excised_claim "A".data 3 " A ".data) :=
  C8_head_and_tail_checks.1 "A".data 3 " A ".data (by decide)

/-- C9: every output document of an excision step is fully stripped of
leading and trailing whitespace, even when neither check fires; hence any
input document with surrounding whitespace is changed by the step. -/
theorem C9_unconditional_strip :
    ∀ (μ : Type) (docs : List (Document μ)) (seq : List Char) (md : Nat)
      (out : List (Document μ)),
      remove_sequence_from_documents docs seq md = .ok out →
      ∀ (i : Nat) (h1 : i < out.length) (h2 : i < docs.length),
        pyStrip out[i].page_content = out[i].page_content ∧
        (pyStrip docs[i].page_content ≠ docs[i].page_content →
          out[i].page_content ≠ docs[i].page_content) := by
  intro μ docs seq md out h i h1 h2
  have hmap := remove_sequence_ok_map h
  subst hmap
  simp only [List.getElem_map]
  constructor
  · exact excised_stripped _ _ _
  · intro hne hcon
    have hlen1 : (excised seq md docs[i].page_content).length ≤
        (pyStrip docs[i].page_content).length := excised_length_le _ _ _
    have hlen2 : (pyStrip docs[i].page_content).length ≤
        docs[i].page_content.length := pyStrip_length_le _
    rw [hcon] at hlen1
    have heq : (pyStrip docs[i].page_content).length = docs[i].page_content.length :=
      Nat.le_antisymm hlen2 hlen1
    exact hne ((pyStrip_within _).sublist.eq_of_length heq)

/-- Witness for C9 at a concrete input. -/
theorem C9_witness : pyStrip "X".data = "X".data ∧ "X".data ≠ " X ".data := by
  have h := C9_unconditional_strip Nat [⟨" X ".data, 0⟩] "A".data 0 [⟨"X".data, 0⟩]
    (by decide) 0 (by decide) (by decide)
  exact ⟨h.1, h.2 (by decide)⟩

/-- C10: the single document `A\nA` contributes one candidate per region
length (here `A` for one line and `A\nA` for two) into the shared cluster
set; both land in the cluster `A`, whose count 2 exceeds the collection
size 1 and reaches the minimum-repetition bar, so the cluster survives the
frequency filter off a single document alone. -/
theorem C10_cluster_exceeds_document_count :
    count_documents_with_similar_n_lines dA 2 3 true = .ok [("A".data, 2)] ∧
    dA.length = 1 ∧ dA.length < 2 ∧
    rat_le_nat (min_repeting_docs dA.length 0) 2 ∧
    get_frequent_sequences [("A".data, 2)] (min_repeting_docs dA.length 0) =
      [("A".data, 2)] :=
  ⟨by decide, by decide, by decide, by decide, by decide⟩

end HeaderFooter
